import Mathlib

/-!
Verification of the influent.rs line-protocol encoder and batched write client.

The definitions below are a shallow embedding of the repository sources:
  * `src/point.rs`  : `Value`, `Point`, the builder methods, `escape`,
    and the line-protocol encoder `Point::to_string`;
  * `src/client.rs` : `Precision`, `ClientError`, `InfluxClient`,
    `write_many` and `query`;
  * `src/hurl.rs`   : the `Request`/`Response`/`Auth`/`Method` transport data.

Rust machine integers `i64`/`u16` are embedded as `Int`/`Nat` (none of the
code paths overflow them), `BTreeMap` as a key-sorted association list with
a replacing insert, and the injected asynchronous transport (`Hurl`) as an
explicit function from the request ordinal and the request to a
`Except String Response` outcome, matching the mock transport the
repository uses in its own tests.
-/

/-! ## Rust `str::replace` specialised to a single-character pattern

`escape` in `src/point.rs` and the string-value quoting both call Rust
`str::replace` with a one-character needle.  For a one-character needle the
replacement is a left-to-right scan substituting each occurrence of the
character. -/

def replace1 (pat : Char) (rep : List Char) : List Char → List Char
  | [] => []
  | c :: cs => if c = pat then rep ++ replace1 pat rep cs else c :: replace1 pat rep cs

/-- The function `escape` from `src/point.rs`:
`s.replace(" ", "\\ ").replace(",", "\\,")`. -/
def escape (s : String) : String :=
  String.mk (replace1 ',' ['\\', ','] (replace1 ' ' ['\\', ' '] s.data))

/-! ## Field values (`Value` in `src/point.rs`) -/

/-- Modelled from the spec: the `f64` payload of `Value::Float` together with
the Rust `f64` `Display` rendering (the shortest decimal representation that
round-trips, printed positionally).  Binary64 arithmetic is not embedded;
the development restricts the float payload to the integer-valued doubles,
represented by that integer, on which the spec pins the rendering down to
"an integral float (e.g., `10.0`) encodes as `10` (no trailing `.0`)", that
is, the plain decimal rendering of the integer. -/
structure F64 where
  val : Int
deriving DecidableEq

/-- Modelled from the spec: Rust `f64` `Display` on an integral float prints
the decimal rendering of the integer, with no trailing `.0`. -/
def F64.display (f : F64) : String :=
  Int.repr f.val

/-- The enumeration `Value` from `src/point.rs`. -/
inductive Value where
  | String (s : String)
  | Float (f : F64)
  | Integer (i : Int)
  | Boolean (b : Bool)
deriving DecidableEq

/-- The `impl ToString for Value` from `src/point.rs`. -/
def valueToString : Value → String
  | Value.String s => "\"" ++ String.mk (replace1 '\"' ['\\', '\"'] s.data) ++ "\""
  | Value.Integer i => Int.repr i ++ "i"
  | Value.Float f => f.display
  | Value.Boolean b => if b then "t" else "f"

/-! ## `Point` and its builder (`src/point.rs`)

Rust `BTreeMap<Cow<str>, _>` is embedded as an association list kept in
strictly ascending (byte-lexicographic, which for UTF-8 coincides with the
`String` order used here) key order; `BTreeMap::insert` replaces the value
when the key is already present. -/

/-- Lexicographic strict order on character lists, the order Rust `str`
comparison induces (byte order of UTF-8 agrees with scalar-value order). -/
def charListLt : List Char → List Char → Bool
  | [], [] => false
  | [], _ :: _ => true
  | _ :: _, [] => false
  | a :: as, b :: bs => if a < b then true else if b < a then false else charListLt as bs

/-- The strict order on keys used by the embedded `BTreeMap`. -/
def strLt (a b : String) : Bool :=
  charListLt a.data b.data

def insertSorted {α : Type} (k : String) (v : α) : List (String × α) → List (String × α)
  | [] => [(k, v)]
  | (k', v') :: rest =>
    if strLt k k' then (k, v) :: (k', v') :: rest
    else if k = k' then (k, v) :: rest
    else (k', v') :: insertSorted k v rest

/-- The structure `Point` from `src/point.rs`. -/
structure Point where
  key : String
  timestamp : Option Int
  fields : List (String × Value)
  tags : List (String × String)
deriving DecidableEq

/-- The builder entry `Point::new` from `src/point.rs`. -/
def Point.new (key : String) : Point :=
  { key := key, timestamp := none, fields := [], tags := [] }

/-- The builder method `Point::field` from `src/point.rs` (a `BTreeMap::insert`). -/
def Point.field (p : Point) (field : String) (value : Value) : Point :=
  { p with fields := insertSorted field value p.fields }

/-- The builder method `Point::tag` from `src/point.rs` (a `BTreeMap::insert`). -/
def Point.tag (p : Point) (tag : String) (value : String) : Point :=
  { p with tags := insertSorted tag value p.tags }

/-- The `impl ToString for Point` from `src/point.rs`: the line-protocol
encoder.  The source pushes the pieces of the line into a vector and joins
them with the empty separator; the field loop carries the `was_spaced`
flag choosing a space before the first field and a comma before each
subsequent one. -/
def Point.toString (p : Point) : String :=
  let line : List String := [escape p.key]
  let line := p.tags.foldl
    (fun acc t => acc ++ [",", escape t.1, "=", escape t.2]) line
  let lineWasSpaced := p.fields.foldl
    (fun (acc : List String × Bool) f =>
      (acc.1 ++ [if acc.2 then "," else " ", escape f.1, "=", valueToString f.2], true))
    (line, false)
  let line := lineWasSpaced.1
  let line := match p.timestamp with
    | some t => line ++ [" ", Int.repr t]
    | none => line
  String.join line


/-! ## Client data (`src/client.rs`, `src/hurl.rs`) -/

/-- The enumeration `Precision` from `src/client.rs`. -/
inductive Precision where
  | Nanoseconds
  | Microseconds
  | Milliseconds
  | Seconds
  | Minutes
  | Hours
deriving DecidableEq

/-- The `impl ToString for Precision` from `src/client.rs`. -/
def Precision.code : Precision → String
  | Precision.Nanoseconds => "n"
  | Precision.Microseconds => "u"
  | Precision.Milliseconds => "ms"
  | Precision.Seconds => "s"
  | Precision.Minutes => "m"
  | Precision.Hours => "h"

/-- The enumeration `ClientError` from `src/client.rs`. -/
inductive ClientError where
  | CouldNotComplete (s : String)
  | Communication (s : String)
  | Syntax (s : String)
  | Unexpected (s : String)
  | Unknown
deriving DecidableEq

/-- The enumeration `Method` from `src/hurl.rs`. -/
inductive Method where
  | POST
  | GET
deriving DecidableEq

/-- The structure `Auth` from `src/hurl.rs`. -/
structure Auth where
  username : String
  password : String
deriving DecidableEq

/-- The structure `Response` from `src/hurl.rs`; `status` is a `u16`. -/
structure Response where
  status : Nat
  body : String
deriving DecidableEq

/-- The structure `Request` from `src/hurl.rs`.  The query `HashMap` is embedded
as a list of key-value pairs (all the keys the client inserts are
distinct); requests only read it back by key lookup. -/
structure Request where
  url : String
  method : Method
  auth : Option Auth
  query : Option (List (String × String))
  body : Option String
deriving DecidableEq

/-- Key lookup in the query map of a request. -/
def qlookup (r : Request) (k : String) : Option String :=
  r.query.bind (fun q => q.lookup k)

/-- The structure `Credentials` from `src/client.rs`. -/
structure Credentials where
  username : String
  password : String
  database : String
deriving DecidableEq

/-- The structure `InfluxClient` from `src/client.rs` (minus the boxed transport,
which the operations below receive explicitly); `max_batch` is a `u16`. -/
structure InfluxClient where
  credentials : Credentials
  host : String
  max_batch : Nat
deriving DecidableEq

/-- The injected transport (`trait Hurl`): the outcome of the `i`-th
request issued during one call, as the mock transport in the repository
tests models it. -/
abbrev HurlFn := Nat → Request → Except String Response

/-- Rust `slice::chunks(n)` for `n ≥ 1`: consecutive chunks of `n`
elements, the last possibly shorter.  (`l.drop (n-1)` applied to the tail
equals `(a :: l).drop n` whenever `n ≥ 1`.) -/
def chunksPos {α : Type} (n : Nat) : List α → List (List α)
  | [] => []
  | a :: l => (a :: l).take n :: chunksPos n (l.drop (n - 1))
termination_by l => l.length
decreasing_by
  simp only [List.length_drop, List.length_cons]
  omega

/-- Rust `slice::chunks` asserts that the chunk size is nonzero and panics
otherwise; the panic is embedded as `none`. -/
def chunks {α : Type} (n : Nat) (l : List α) : Option (List (List α)) :=
  if n = 0 then none else some (chunksPos n l)

/-- The query-parameter map built for one write request in
`InfluxClient::write_many`: `db`, plus `precision` when given. -/
def writeQuery (client : InfluxClient) (precision : Option Precision) : List (String × String) :=
  [("db", client.credentials.database)] ++
    (match precision with
     | some p => [("precision", p.code)]
     | none => [])

/-- The write request `InfluxClient::write_many` issues for one chunk:
POST to `<host>/write`, basic auth always attached, body the encoded
lines joined with a newline. -/
def mkWriteRequest (client : InfluxClient) (precision : Option Precision)
    (chunk : List Point) : Request :=
  { url := client.host ++ "/write"
    method := Method.POST
    auth := some { username := client.credentials.username
                   password := client.credentials.password }
    query := some (writeQuery client precision)
    body := some ( String.intercalate "\n" (chunk.map Point.toString)) }

/-- The chunk loop of `InfluxClient::write_many`: issue one request per
chunk in order, stop at the first failure, classifying the response as the
source match does.  Also returns the list of requests issued, in order. -/
def writeManyLoop (client : InfluxClient) (hurl : HurlFn)
    (precision : Option Precision) :
    Nat → List (List Point) → List Request × Except ClientError Unit
  | _, [] => ([], Except.ok ())
  | i, chunk :: rest =>
    let req := mkWriteRequest client precision chunk
    match hurl i req with
    | Except.error e => ([req], Except.error ( ClientError.Communication e))
    | Except.ok resp =>
      match resp.status with
      | 204 =>
        let out := writeManyLoop client hurl precision (i + 1) rest
        (req :: out.1, out.2)
      | 200 => ([req], Except.error ( ClientError.CouldNotComplete resp.body))
      | 400 => ([req], Except.error ( ClientError.Syntax resp.body))
      | s => ([req], Except.error ( ClientError.Unexpected
          ("Unexpected response. Status: " ++ Nat.repr s ++ "; Body: \"" ++ resp.body ++ "\"")))

/-- The operation `InfluxClient::write_many` from `src/client.rs`.  `none` embeds the
panic of `measurements.chunks(0)` when `max_batch` is zero; otherwise the
result carries the requests issued, in order, and the returned value. -/
def write_many (client : InfluxClient) (hurl : HurlFn)
    (measurements : List Point) (precision : Option Precision) :
    Option (List Request × Except ClientError Unit) :=
  (chunks client.max_batch measurements).map (writeManyLoop client hurl precision 0)

/-- The operation `InfluxClient::write_one` from `src/client.rs`. -/
def write_one (client : InfluxClient) (hurl : HurlFn)
    (measurement : Point) (precision : Option Precision) :
    Option (List Request × Except ClientError Unit) :=
  write_many client hurl [measurement] precision

/-- The classification the write path of `src/client.rs` applies to one
transport outcome: `none` is the all-good `204` case, `some e` the error
returned to the caller. -/
def classifyWrite (r : Except String Response) : Option ClientError :=
  match r with
  | Except.error e => some ( ClientError.Communication e)
  | Except.ok resp =>
    match resp.status with
    | 204 => none
    | 200 => some ( ClientError.CouldNotComplete resp.body)
    | 400 => some ( ClientError.Syntax resp.body)
    | s => some ( ClientError.Unexpected
        ("Unexpected response. Status: " ++ Nat.repr s ++ "; Body: \"" ++ resp.body ++ "\""))

/-- The request `InfluxClient::query` issues: GET to `<host>/query` with
`db`, `q`, and `epoch` when given; basic auth omitted exactly when both
credentials are empty. -/
def mkQueryRequest (client : InfluxClient) (q : String) (epoch : Option Precision) : Request :=
  { url := client.host ++ "/query"
    method := Method.GET
    auth :=
      if client.credentials.username = "" ∧ client.credentials.password = "" then none
      else some { username := client.credentials.username
                  password := client.credentials.password }
    query := some ([("db", client.credentials.database), ("q", q)] ++
      (match epoch with
       | some e => [("epoch", e.code)]
       | none => []))
    body := none }

/-- The operation `InfluxClient::query` from `src/client.rs`; the transport is a single
request/response exchange.  Returns the issued request and the outcome. -/
def query (client : InfluxClient) (hurl : Request → Except String Response)
    (q : String) (epoch : Option Precision) : Request × Except ClientError String :=
  let req := mkQueryRequest client q epoch
  (req,
    match hurl req with
    | Except.error e => Except.error ( ClientError.Communication e)
    | Except.ok resp =>
      match resp.status with
      | 200 => Except.ok resp.body
      | 400 => Except.error ( ClientError.Syntax resp.body)
      | s => Except.error ( ClientError.Unexpected
          ("Unexpected response. Status: " ++ Nat.repr s ++ "; Body: \"" ++ resp.body ++ "\"")) )

/-! ## The claimed shape of an encoded line (C1) -/

/-- The text the claim prescribes for one tag. -/
def tagText (t : String × String) : String :=
  "," ++ escape t.1 ++ "=" ++ escape t.2

/-- The text the claim prescribes for one field, separator aside. -/
def fieldText (f : String × Value) : String :=
  escape f.1 ++ "=" ++ valueToString f.2

/-- The claimed field section: a single space before the first field and a
comma before each subsequent one. -/
def fieldsSpecPart : List (String × Value) → String
  | [] => ""
  | f :: rest => " " ++ fieldText f ++ String.join (rest.map (fun g => "," ++ fieldText g))

/-- The claimed timestamp section. -/
def timestampSpecPart : Option Int → String
  | some t => " " ++ Int.repr t
  | none => ""

/-- The line shape claimed for the encoder, assembled per the spec text. -/
def pointSpecLine (p : Point) : String :=
  escape p.key ++ String.join (p.tags.map tagText)
    ++ fieldsSpecPart p.fields ++ timestampSpecPart p.timestamp

/-- The end-to-end example point of the claim, built exactly as the
repository test builds it. -/
def examplePoint : Point :=
  ((((((Point.new "key").field "s" (Value.String "string")).field "i"
    (Value.Integer 10)).field "f" (Value.Float ⟨10⟩)).field "b"
    (Value.Boolean false)).tag "tag" "value")

/-- Folding a list of entries into a map with the replacing sorted insert. -/
def insertAll {α : Type} (l : List (String × α)) (init : List (String × α)) :
    List (String × α) :=
  l.foldl (fun m kv => insertSorted kv.1 kv.2 m) init

/-- Building a point by running the tag inserts and the field inserts of
the source builder in sequence. -/
def Point.build (key : String) (tags : List (String × String))
    (fields : List (String × Value)) : Point :=
  tags.foldl (fun p t => p.tag t.1 t.2)
    (fields.foldl (fun p f => p.field f.1 f.2) (Point.new key))

/-- The client the repository tests construct, with the default batch size. -/
def exampleClient : InfluxClient :=
  { credentials := { username := "gobwas", password := "1234", database := "test" }
    host := "http://localhost:8086"
    max_batch := 5000 }

/-- A transport that always answers 204. -/
def allOkHurl : HurlFn := fun _ _ => Except.ok { status := 204, body := "Ok" }

/-- The 12,001 points of the batching example. -/
def manyPoints : List Point := List.replicate 12001 (Point.new "key")

/-- The three points, unit batch size, and fail-on-second-request
transport of the C3 example. -/
def smallClient : InfluxClient :=
  { credentials := { username := "u", password := "p", database := "db" }
    host := "http://h"
    max_batch := 1 }

def threePoints : List Point := [Point.new "a", Point.new "b", Point.new "c"]

def failSecondHurl : HurlFn := fun i _ =>
  if i = 0 then Except.ok { status := 204, body := "Ok" }
  else Except.ok { status := 400, body := "bad" }

/-- A transport answering 200 on a write, the could-not-complete case. -/
def status200Hurl : HurlFn := fun _ _ => Except.ok { status := 200, body := "oops" }

/-- A query transport answering 204, unexpected on the query path. -/
def q204Hurl : Request → Except String Response :=
  fun _ => Except.ok { status := 204, body := "nope" }

/-- The empty-credential client of the C6 example. -/
def emptyCredClient : InfluxClient :=
  { credentials := { username := "", password := "", database := "db" }
    host := "http://h"
    max_batch := 5000 }

/-- A query transport answering 200 with a body. -/
def q200Hurl : Request → Except String Response :=
  fun _ => Except.ok { status := 200, body := "data" }

/-- A client with the batch size zero the configuration surface admits. -/
def zeroClient : InfluxClient :=
  { credentials := { username := "u", password := "p", database := "db" }
    host := "http://h"
    max_batch := 0 }

/-! ## String concatenation helpers -/

theorem foldl_append_eq (l : List String) :
    ∀ b : String, l.foldl (fun r s => r ++ s) b = b ++ String.join l := by
  induction l with
  | nil => intro b; simp [String.join, String.append_empty]
  | cons a l ih =>
    intro b
    show l.foldl (fun r s => r ++ s) (b ++ a) = b ++ String.join (a :: l)
    rw [ih (b ++ a)]
    show b ++ a ++ String.join l = b ++ (a :: l).foldl (fun r s => r ++ s) ""
    show b ++ a ++ String.join l = b ++ l.foldl (fun r s => r ++ s) ("" ++ a)
    rw [ih ("" ++ a), String.empty_append, String.append_assoc]

theorem join_cons (a : String) (l : List String) :
    String.join (a :: l) = a ++ String.join l := by
  show (a :: l).foldl (fun r s => r ++ s) "" = a ++ String.join l
  show l.foldl (fun r s => r ++ s) ("" ++ a) = a ++ String.join l
  rw [foldl_append_eq, String.empty_append]

theorem join_nil : String.join [] = "" := rfl

theorem join_append (l₁ l₂ : List String) :
    String.join (l₁ ++ l₂) = String.join l₁ ++ String.join l₂ := by
  induction l₁ with
  | nil => simp [join_nil, String.empty_append]
  | cons a l ih =>
    simp only [List.cons_append, join_cons, ih, String.append_assoc]

/-! ## The character-level reading of the escaping routines (C5, C8) -/

theorem replace1_eq_flatMap (pat : Char) (rep : List Char) (cs : List Char) :
    replace1 pat rep cs = cs.flatMap (fun c => if c = pat then rep else [c]) := by
  induction cs with
  | nil => rfl
  | cons c cs ih =>
    by_cases h : c = pat <;> simp [replace1, h, ih]

theorem escape_charwise (s : String) :
    escape s = String.mk (s.data.flatMap
      (fun c => if c = ' ' then ['\\', ' '] else if c = ',' then ['\\', ','] else [c])) := by
  unfold escape
  rw [replace1_eq_flatMap, replace1_eq_flatMap, List.flatMap_assoc]
  congr 1
  apply List.flatMap_congr
  intro c _
  by_cases h1 : c = ' '
  · simp [h1]
  · by_cases h2 : c = ','
    · simp [h1, h2]
    · simp [h1, h2]

/-- Claim C8: `escape` replaces every space with backslash-space and every
comma with backslash-comma and leaves every other character unchanged
(stated as the one-pass character map it equals), and in particular
`escape " " = "\ "`, `escape "," = "\,"`, and
`escape "hello, gobwas" = "hello\,\ gobwas"`. -/
theorem escape_spec_C8 :
    (∀ s : String, escape s = String.mk (s.data.flatMap
      (fun c => if c = ' ' then ['\\', ' '] else if c = ',' then ['\\', ','] else [c])))
    ∧ escape " " = "\\ " ∧ escape "," = "\\," ∧
      escape "hello, gobwas" = "hello\\,\\ gobwas" :=
  ⟨escape_charwise, by decide, by decide, by decide⟩

/-- Claim C5: value encoding is total (it is a Lean function) and on the
non-float constructors equals the reference definition: strings are
wrapped in double quotes with every internal double quote replaced by
backslash-quote and no other character changed, integers render in
decimal with an `i` suffix (`-10` to `"-10i"`), and booleans render as
`"t"`/`"f"`. -/
theorem value_encoding_C5 :
    (∀ s : String, valueToString (Value.String s) =
      "\"" ++ String.mk (s.data.flatMap
        (fun c => if c = '\"' then ['\\', '\"'] else [c])) ++ "\"")
    ∧ (∀ i : Int, valueToString (Value.Integer i) = Int.repr i ++ "i")
    ∧ valueToString (Value.Boolean true) = "t"
    ∧ valueToString (Value.Boolean false) = "f"
    ∧ valueToString (Value.Integer (-10)) = "-10i" := by
  refine ⟨fun s => ?_, fun i => rfl, rfl, rfl, by decide⟩
  show "\"" ++ String.mk (replace1 '\"' ['\\', '\"'] s.data) ++ "\"" = _
  rw [replace1_eq_flatMap]

theorem tags_foldl_join (ts : List (String × String)) :
    ∀ acc : List String,
      String.join (ts.foldl (fun acc t => acc ++ [",", escape t.1, "=", escape t.2]) acc)
        = String.join acc ++ String.join (ts.map tagText) := by
  induction ts with
  | nil => intro acc; simp [join_nil, String.append_empty]
  | cons t ts ih =>
    intro acc
    show String.join (ts.foldl _ (acc ++ [",", escape t.1, "=", escape t.2])) = _
    rw [ih]
    simp [join_append, join_cons, join_nil, tagText,
      String.append_assoc, String.append_empty]

theorem fields_foldl_join_true (fs : List (String × Value)) :
    ∀ acc : List String,
      String.join ((fs.foldl
        (fun (acc : List String × Bool) f =>
          (acc.1 ++ [if acc.2 then "," else " ", escape f.1, "=", valueToString f.2], true))
        (acc, true)).1)
        = String.join acc ++ String.join (fs.map (fun g => "," ++ fieldText g)) := by
  induction fs with
  | nil => intro acc; simp [join_nil, String.append_empty]
  | cons f fs ih =>
    intro acc
    show String.join ((fs.foldl _ (acc ++ [",", escape f.1, "=", valueToString f.2], true)).1) = _
    rw [ih]
    simp [join_append, join_cons, join_nil, fieldText,
      String.append_assoc, String.append_empty]

theorem fields_foldl_join_false (fs : List (String × Value)) (acc : List String) :
    String.join ((fs.foldl
      (fun (acc : List String × Bool) f =>
        (acc.1 ++ [if acc.2 then "," else " ", escape f.1, "=", valueToString f.2], true))
      (acc, false)).1)
      = String.join acc ++ fieldsSpecPart fs := by
  cases fs with
  | nil => simp [fieldsSpecPart, String.append_empty]
  | cons f fs =>
    show String.join ((fs.foldl _ (acc ++ [" ", escape f.1, "=", valueToString f.2], true)).1) = _
    rw [fields_foldl_join_true]
    simp [join_append, join_cons, join_nil, fieldsSpecPart, fieldText,
      String.append_assoc, String.append_empty]

/-- Claim C1: for every `Point` whose tag and field maps are in strictly
ascending key order (every map the builder produces is), the encoder
emits the escaped key, then the comma-separated escaped tags, then the
fields with a space before the first and commas between, then the
timestamp when present — exactly the line shape of `pointSpecLine`. -/
theorem point_to_string_C1 (p : Point)
    (htags : p.tags.Pairwise (fun a b => strLt a.1 b.1 = true))
    (hfields : p.fields.Pairwise (fun a b => strLt a.1 b.1 = true)) :
    Point.toString p = pointSpecLine p := by
  unfold Point.toString pointSpecLine
  cases hts : p.timestamp with
  | none =>
    rw [fields_foldl_join_false, tags_foldl_join, join_cons, join_nil]
    simp [timestampSpecPart, String.append_assoc, String.append_empty]
  | some t =>
    rw [join_append, fields_foldl_join_false, tags_foldl_join, join_cons, join_nil,
      join_cons, join_cons, join_nil]
    simp [timestampSpecPart, String.append_assoc, String.append_empty]

theorem point_to_string_C1_witness :
    examplePoint.tags.Pairwise (fun a b => strLt a.1 b.1 = true)
    ∧ examplePoint.fields.Pairwise (fun a b => strLt a.1 b.1 = true)
    ∧ Point.toString examplePoint = "key,tag=value b=f,f=10,i=10i,s=\"string\"" := by
  refine ⟨by decide, by decide, ?_⟩
  rw [point_to_string_C1 examplePoint (by decide) (by decide)]
  decide

/-! ## The key order is a strict linear order (toward C7) -/

theorem charListLt_irrefl : ∀ l : List Char, charListLt l l = false := by
  intro l
  induction l with
  | nil => rfl
  | cons a l ih => simp [charListLt, lt_irrefl, ih]

theorem charListLt_asymm : ∀ a b : List Char,
    charListLt a b = true → charListLt b a = false := by
  intro a
  induction a with
  | nil =>
    intro b hab
    cases b with
    | nil => simpa [charListLt] using hab
    | cons c cs => rfl
  | cons x xs ih =>
    intro b hab
    cases b with
    | nil => simpa [charListLt] using hab
    | cons y ys =>
      simp only [charListLt] at hab ⊢
      by_cases hxy : x < y
      · simp [hxy, lt_asymm hxy]
      · by_cases hyx : y < x
        · simp [hxy, hyx] at hab
        · simp only [hxy, hyx, if_false] at hab
          simp [hxy, hyx, ih ys hab]

theorem charListLt_trans : ∀ a b c : List Char,
    charListLt a b = true → charListLt b c = true → charListLt a c = true := by
  intro a
  induction a with
  | nil =>
    intro b c hab hbc
    cases b with
    | nil => simpa [charListLt] using hab
    | cons y ys =>
      cases c with
      | nil => simpa [charListLt] using hbc
      | cons z zs => rfl
  | cons x xs ih =>
    intro b c hab hbc
    cases b with
    | nil => simpa [charListLt] using hab
    | cons y ys =>
      cases c with
      | nil => simpa [charListLt] using hbc
      | cons z zs =>
        simp only [charListLt] at hab hbc ⊢
        by_cases hxy : x < y
        · by_cases hyz : y < z
          · simp [lt_trans hxy hyz]
          · by_cases hzy : z < y
            · simp [hyz, hzy] at hbc
            · have : y = z := le_antisymm (not_lt.mp hzy) (not_lt.mp hyz)
              subst this
              simp [hxy]
        · by_cases hyx : y < x
          · simp [hxy, hyx] at hab
          · have hxyeq : x = y := le_antisymm (not_lt.mp hyx) (not_lt.mp hxy)
            subst hxyeq
            simp only [hxy, if_false, lt_irrefl] at hab
            by_cases hyz : x < z
            · simp [hyz]
            · by_cases hzy : z < x
              · simp [hyz, hzy] at hbc
              · simp only [hyz, hzy, if_false] at hbc ⊢
                exact ih ys zs hab hbc

theorem charListLt_total : ∀ a b : List Char,
    a = b ∨ charListLt a b = true ∨ charListLt b a = true := by
  intro a
  induction a with
  | nil =>
    intro b
    cases b with
    | nil => exact Or.inl rfl
    | cons y ys => exact Or.inr (Or.inl rfl)
  | cons x xs ih =>
    intro b
    cases b with
    | nil => exact Or.inr (Or.inr rfl)
    | cons y ys =>
      rcases lt_trichotomy x y with hxy | hxy | hxy
      · exact Or.inr (Or.inl (by simp [charListLt, hxy]))
      · subst hxy
        rcases ih ys with h | h | h
        · exact Or.inl (by rw [h])
        · exact Or.inr (Or.inl (by simp [charListLt, lt_irrefl, h]))
        · exact Or.inr (Or.inr (by simp [charListLt, lt_irrefl, h]))
      · exact Or.inr (Or.inr (by simp [charListLt, hxy, lt_asymm hxy]))

theorem strLt_irrefl (a : String) : strLt a a = false :=
  charListLt_irrefl a.data

theorem strLt_asymm {a b : String} (h : strLt a b = true) : strLt b a = false :=
  charListLt_asymm a.data b.data h

theorem strLt_trans {a b c : String} (h₁ : strLt a b = true) (h₂ : strLt b c = true) :
    strLt a c = true :=
  charListLt_trans a.data b.data c.data h₁ h₂

theorem strLt_total (a b : String) : a = b ∨ strLt a b = true ∨ strLt b a = true := by
  rcases charListLt_total a.data b.data with h | h | h
  · exact Or.inl (String.ext h)
  · exact Or.inr (Or.inl h)
  · exact Or.inr (Or.inr h)

theorem strLt_ne {a b : String} (h : strLt a b = true) : a ≠ b := by
  intro heq
  subst heq
  rw [strLt_irrefl] at h
  exact Bool.false_ne_true h

/-! ## Commutativity of map insertion at distinct keys (C7) -/

theorem insertSorted_comm {α : Type} {k₁ k₂ : String} (h : k₁ ≠ k₂) (v₁ v₂ : α) :
    ∀ l, insertSorted k₁ v₁ (insertSorted k₂ v₂ l)
      = insertSorted k₂ v₂ (insertSorted k₁ v₁ l) := by
  intro l
  induction l with
  | nil =>
    rcases strLt_total k₁ k₂ with heq | hlt | hgt
    · exact absurd heq h
    · simp [insertSorted, hlt, strLt_asymm hlt, Ne.symm h]
    · simp [insertSorted, hgt, strLt_asymm hgt, h]
  | cons kv l ih =>
    obtain ⟨k, v⟩ := kv
    rcases strLt_total k₁ k with h1eq | h1lt | h1gt
    · subst h1eq
      rcases strLt_total k₂ k₁ with h2eq | h2lt | h2gt
      · exact absurd h2eq.symm h
      · simp [insertSorted, h2lt, strLt_asymm h2lt, strLt_irrefl, h, Ne.symm h]
      · simp [insertSorted, h2gt, strLt_asymm h2gt, strLt_irrefl, h, Ne.symm h]
    · rcases strLt_total k₂ k with h2eq | h2lt | h2gt
      · subst h2eq
        simp [insertSorted, h1lt, strLt_asymm h1lt, strLt_irrefl, h, Ne.symm h]
      · rcases strLt_total k₁ k₂ with heq | hlt | hgt
        · exact absurd heq h
        · simp [insertSorted, h1lt, h2lt, hlt, strLt_asymm hlt, h, Ne.symm h]
        · simp [insertSorted, h1lt, h2lt, hgt, strLt_asymm hgt, h, Ne.symm h]
      · have hlt12 : strLt k₁ k₂ = true := strLt_trans h1lt h2gt
        simp [insertSorted, h1lt, strLt_asymm h2gt, strLt_ne h2gt, hlt12,
          strLt_asymm hlt12, h, Ne.symm h, (strLt_ne h2gt).symm]
    · rcases strLt_total k₂ k with h2eq | h2lt | h2gt
      · subst h2eq
        simp [insertSorted, h1gt, strLt_asymm h1gt, strLt_irrefl, h, Ne.symm h,
          strLt_ne h1gt, (strLt_ne h1gt).symm]
      · have hlt21 : strLt k₂ k₁ = true := strLt_trans h2lt h1gt
        simp [insertSorted, h2lt, strLt_asymm h1gt, strLt_ne h1gt, hlt21,
          strLt_asymm hlt21, h, Ne.symm h, (strLt_ne h1gt).symm]
      · simp [insertSorted, strLt_asymm h1gt, strLt_asymm h2gt,
          (strLt_ne h1gt).symm, (strLt_ne h2gt).symm, ih]

/-! ## Builder folds (C7) -/

theorem insertAll_perm {α : Type} {l₁ l₂ : List (String × α)}
    (hperm : l₁.Perm l₂) (hnd : (l₁.map Prod.fst).Nodup)
    (init : List (String × α)) : insertAll l₁ init = insertAll l₂ init := by
  apply hperm.foldl_eq'
  intro x hx y hy z
  by_cases hxy : x = y
  · subst hxy; rfl
  · have hk : y.1 ≠ x.1 := by
      intro hk1
      exact hxy (List.inj_on_of_nodup_map hnd hx hy hk1.symm)
    exact insertSorted_comm hk y.2 x.2 z

theorem foldl_field_eq : ∀ (fs : List (String × Value)) (p : Point),
    fs.foldl (fun p f => p.field f.1 f.2) p = { p with fields := insertAll fs p.fields } := by
  intro fs
  induction fs with
  | nil => intro p; rfl
  | cons f fs ih =>
    intro p
    show fs.foldl _ (p.field f.1 f.2) = _
    rw [ih]
    rfl

theorem foldl_tag_eq : ∀ (ts : List (String × String)) (p : Point),
    ts.foldl (fun p t => p.tag t.1 t.2) p = { p with tags := insertAll ts p.tags } := by
  intro ts
  induction ts with
  | nil => intro p; rfl
  | cons t ts ih =>
    intro p
    show ts.foldl _ (p.tag t.1 t.2) = _
    rw [ih]
    rfl

theorem insertSorted_last_wins {α : Type} (k : String) (v₁ v₂ : α) :
    ∀ l, insertSorted k v₂ (insertSorted k v₁ l) = insertSorted k v₂ l := by
  intro l
  induction l with
  | nil => simp [insertSorted, strLt_irrefl]
  | cons kv l ih =>
    obtain ⟨k', v'⟩ := kv
    rcases strLt_total k k' with heq | hlt | hgt
    · subst heq
      simp [insertSorted, strLt_irrefl]
    · simp [insertSorted, hlt, strLt_irrefl]
    · simp [insertSorted, strLt_asymm hgt, (strLt_ne hgt).symm, ih]

/-- Claim C7: encoding is deterministic (the encoder is a function), the
encoded line of a built point does not depend on the insertion order of
tag and field entries with pairwise distinct keys, and inserting twice
under one key keeps the last value. -/
theorem point_determinism_C7 :
    (∀ p : Point, Point.toString p = Point.toString p)
    ∧ (∀ (key : String) (tags₁ tags₂ : List (String × String))
        (fields₁ fields₂ : List (String × Value)),
        tags₁.Perm tags₂ → (tags₁.map Prod.fst).Nodup →
        fields₁.Perm fields₂ → (fields₁.map Prod.fst).Nodup →
        Point.toString (Point.build key tags₁ fields₁)
          = Point.toString (Point.build key tags₂ fields₂))
    ∧ (∀ (p : Point) (k : String) (v₁ v₂ : Value),
        (p.field k v₁).field k v₂ = p.field k v₂)
    ∧ (∀ (p : Point) (k w₁ w₂ : String),
        (p.tag k w₁).tag k w₂ = p.tag k w₂) := by
  refine ⟨fun p => rfl, ?_, ?_, ?_⟩
  · intro key tags₁ tags₂ fields₁ fields₂ htp htn hfp hfn
    have : Point.build key tags₁ fields₁ = Point.build key tags₂ fields₂ := by
      unfold Point.build
      rw [foldl_field_eq, foldl_field_eq, foldl_tag_eq, foldl_tag_eq,
        insertAll_perm htp htn, insertAll_perm hfp hfn]
    rw [this]
  · intro p k v₁ v₂
    show { p with fields := insertSorted k v₂ (insertSorted k v₁ p.fields) } = _
    rw [insertSorted_last_wins]
    rfl
  · intro p k w₁ w₂
    show { p with tags := insertSorted k w₂ (insertSorted k w₁ p.tags) } = _
    rw [insertSorted_last_wins]
    rfl

theorem point_determinism_C7_witness :
    ([(("b" : String), "1"), ("a", "2")].Perm [("a", "2"), ("b", "1")])
    ∧ ([(("b" : String), "1"), ("a", "2")].map Prod.fst).Nodup
    ∧ ([(("y" : String), Value.Integer 1), ("x", Value.Boolean true)].Perm
        [("x", Value.Boolean true), ("y", Value.Integer 1)])
    ∧ ([(("y" : String), Value.Integer 1), ("x", Value.Boolean true)].map Prod.fst).Nodup
    ∧ Point.toString (Point.build "k" [("b", "1"), ("a", "2")]
        [("y", Value.Integer 1), ("x", Value.Boolean true)])
      = Point.toString (Point.build "k" [("a", "2"), ("b", "1")]
        [("x", Value.Boolean true), ("y", Value.Integer 1)]) := by
  refine ⟨by decide, by decide, by decide, by decide, ?_⟩
  exact point_determinism_C7.2.1 "k" _ _ _ _ (by decide) (by decide) (by decide) (by decide)

/-! ## Chunking lemmas (C2, C10) -/

theorem chunksPos_flatten {α : Type} (m : Nat) (l : List α) :
    (chunksPos (m+1) l).flatten = l := by
  induction l using chunksPos.induct (n := m+1) with
  | case1 => simp [chunksPos]
  | case2 a l ih =>
    simp only [Nat.add_sub_cancel] at ih
    simp [chunksPos, ih]

theorem chunksPos_length {α : Type} (m : Nat) (l : List α) :
    (chunksPos (m+1) l).length = (l.length + m) / (m + 1) := by
  induction l using chunksPos.induct (n := m+1) with
  | case1 => simp [chunksPos, Nat.div_eq_of_lt (by omega : m < m + 1)]
  | case2 a l ih =>
    simp only [Nat.add_sub_cancel] at ih
    simp only [chunksPos, List.length_cons, Nat.add_sub_cancel, ih, List.length_drop]
    by_cases hl : m ≤ l.length
    · rw [show l.length - m + m = l.length from by omega,
        show l.length + 1 + m = l.length + (m + 1) from by omega,
        Nat.add_div_right _ (Nat.succ_pos m)]
    · rw [show l.length - m + m = m from by omega, Nat.div_eq_of_lt (by omega)]
      rw [show (0:Nat) + 1 = 1 from rfl]
      symm
      apply Nat.div_eq_of_lt_le <;> omega

theorem chunksPos_getD_length {α : Type} (m : Nat) (l : List α) :
    ∀ i, i < (chunksPos (m+1) l).length →
      ((chunksPos (m+1) l).getD i []).length = min (m + 1) (l.length - i * (m + 1)) := by
  induction l using chunksPos.induct (n := m+1) with
  | case1 => intro i hi; simp [chunksPos] at hi
  | case2 a l ih =>
    intro i hi
    simp only [Nat.add_sub_cancel] at ih
    match i with
    | 0 => simp [chunksPos, List.length_take]; omega
    | Nat.succ j =>
      simp only [chunksPos, Nat.add_sub_cancel, List.getD_cons_succ, List.length_cons] at hi ⊢
      rw [ih j (by simpa [chunksPos] using hi), List.length_drop, Nat.succ_mul]
      congr 1
      omega

theorem chunksPos_mem {α : Type} (m : Nat) (l : List α) :
    ∀ c ∈ chunksPos (m+1) l, c ≠ [] ∧ c.length ≤ m + 1 := by
  induction l using chunksPos.induct (n := m+1) with
  | case1 => simp [chunksPos]
  | case2 a l ih =>
    simp only [Nat.add_sub_cancel] at ih
    intro c hc
    simp only [chunksPos, Nat.add_sub_cancel, List.mem_cons] at hc
    rcases hc with rfl | hc
    · refine ⟨by simp, ?_⟩
      simp [List.length_take]
    · exact ih c hc

/-! ## The write loop, one step at a time (C2, C3, C4) -/

theorem writeManyLoop_nil (client : InfluxClient) (hurl : HurlFn)
    (precision : Option Precision) (i : Nat) :
    writeManyLoop client hurl precision i [] = ([], Except.ok ()) := rfl

theorem writeManyLoop_cons (client : InfluxClient) (hurl : HurlFn)
    (precision : Option Precision) (i : Nat) (c : List Point) (cs : List (List Point)) :
    writeManyLoop client hurl precision i (c :: cs)
      = (match classifyWrite (hurl i (mkWriteRequest client precision c)) with
         | none =>
           (mkWriteRequest client precision c
              :: (writeManyLoop client hurl precision (i+1) cs).1,
            (writeManyLoop client hurl precision (i+1) cs).2)
         | some err => ([mkWriteRequest client precision c], Except.error err)) := by
  cases h : hurl i (mkWriteRequest client precision c) with
  | error e => simp [writeManyLoop, classifyWrite, h]
  | ok resp =>
    rcases resp with ⟨s, b⟩
    simp only [writeManyLoop, classifyWrite, h]
    split <;> rfl

theorem classifyWrite_eq_none (r : Except String Response) :
    classifyWrite r = none ↔ ∃ b, r = Except.ok ⟨204, b⟩ := by
  cases r with
  | error e => simp [classifyWrite]
  | ok resp =>
    rcases resp with ⟨s, b⟩
    simp only [classifyWrite]
    constructor
    · intro h
      split at h
      · exact ⟨b, rfl⟩
      · exact absurd h (by simp)
      · exact absurd h (by simp)
      · exact absurd h (by simp)
    · rintro ⟨b', hb⟩
      obtain ⟨rfl, rfl⟩ : s = 204 ∧ b = b' := by
        constructor <;> injection hb with h' <;> cases h' <;> rfl
      rfl

theorem writeManyLoop_all_ok (client : InfluxClient) (hurl : HurlFn)
    (precision : Option Precision) :
    ∀ (cs : List (List Point)) (i : Nat),
      (∀ j r, j < cs.length → ∃ b, hurl (i + j) r = Except.ok ⟨204, b⟩) →
      writeManyLoop client hurl precision i cs
        = (cs.map (mkWriteRequest client precision), Except.ok ()) := by
  intro cs
  induction cs with
  | nil => intro i _; rfl
  | cons c cs ih =>
    intro i h
    rw [writeManyLoop_cons]
    have h0 : classifyWrite (hurl i (mkWriteRequest client precision c)) = none := by
      rw [classifyWrite_eq_none]
      simpa using h 0 (mkWriteRequest client precision c) (by simp)
    rw [h0, ih (i+1) (fun j r hj => by
      have := h (j+1) r (by simpa using Nat.succ_lt_succ hj)
      simpa [Nat.add_assoc, Nat.add_comm 1 j] using this)]
    rfl

theorem writeManyLoop_abort (client : InfluxClient) (hurl : HurlFn)
    (precision : Option Precision) :
    ∀ (cs : List (List Point)) (k i : Nat) (err : ClientError),
      k < cs.length →
      (∀ j r, j < k → ∃ b, hurl (i + j) r = Except.ok ⟨204, b⟩) →
      (∀ r, classifyWrite (hurl (i + k) r) = some err) →
      writeManyLoop client hurl precision i cs
        = ((cs.take (k+1)).map (mkWriteRequest client precision), Except.error err) := by
  intro cs
  induction cs with
  | nil => intro k i err hk _ _; simp at hk
  | cons c cs ih =>
    intro k i err hk h204 hfail
    rw [writeManyLoop_cons]
    match k with
    | 0 =>
      rw [Nat.add_zero] at hfail
      rw [hfail (mkWriteRequest client precision c)]
      rfl
    | Nat.succ k =>
      have h0 : classifyWrite (hurl i (mkWriteRequest client precision c)) = none := by
        rw [classifyWrite_eq_none]
        simpa using h204 0 (mkWriteRequest client precision c) (Nat.succ_pos k)
      rw [h0, ih k (i+1) err (by simpa using Nat.lt_of_succ_lt_succ hk)
        (fun j r hj => by
          have := h204 (j+1) r (Nat.succ_lt_succ hj)
          simpa [Nat.add_assoc, Nat.add_comm 1 j] using this)
        (fun r => by
          have := hfail r
          simpa [Nat.add_assoc, Nat.add_comm 1 k] using this)]
      rfl

theorem writeManyLoop_ok_inv (client : InfluxClient) (hurl : HurlFn)
    (precision : Option Precision) :
    ∀ (cs : List (List Point)) (i : Nat) (reqs : List Request),
      writeManyLoop client hurl precision i cs = (reqs, Except.ok ()) →
      ∀ k, k < cs.length →
        ∃ b, hurl (i + k) (mkWriteRequest client precision (cs.getD k []))
          = Except.ok ⟨204, b⟩ := by
  intro cs
  induction cs with
  | nil => intro i reqs _ k hk; simp at hk
  | cons c cs ih =>
    intro i reqs h k hk
    rw [writeManyLoop_cons] at h
    cases hcl : classifyWrite (hurl i (mkWriteRequest client precision c)) with
    | some err => rw [hcl] at h; simp at h
    | none =>
      rw [hcl] at h
      have h2 : (writeManyLoop client hurl precision (i+1) cs).2 = Except.ok () := by
        have := congrArg Prod.snd h
        simpa using this
      match k with
      | 0 =>
        rw [Nat.add_zero]
        simpa using (classifyWrite_eq_none _).mp hcl
      | Nat.succ k =>
        have hpair : writeManyLoop client hurl precision (i+1) cs
            = ((writeManyLoop client hurl precision (i+1) cs).1, Except.ok ()) := by
          rw [← h2]
        have := ih (i+1) _ hpair k (by simpa using Nat.lt_of_succ_lt_succ hk)
        simpa [Nat.add_assoc, Nat.add_comm 1 k] using this

/-- Claim C2: with every response a 204, `write_many` splits the points
into consecutive order-preserving chunks of at most `max_batch` elements,
issues one POST per chunk in order — `ceil(n / max_batch)` requests in
total — and each request carries `db`, `precision` exactly when given,
basic auth, and the newline-joined encoded lines of its chunk. -/
theorem write_many_batches_C2 (client : InfluxClient) (hurl : HurlFn)
    (pts : List Point) (precision : Option Precision) (m : Nat)
    (hm : client.max_batch = m + 1)
    (h204 : ∀ i r, ∃ b, hurl i r = Except.ok ⟨204, b⟩) :
    ∃ cs : List (List Point),
      write_many client hurl pts precision
        = some (cs.map (mkWriteRequest client precision), Except.ok ())
      ∧ cs.flatten = pts
      ∧ cs.length = (pts.length + m) / (m + 1)
      ∧ (∀ c ∈ cs, c ≠ [] ∧ c.length ≤ m + 1)
      ∧ (∀ i, i < cs.length →
          (cs.getD i []).length = min (m + 1) (pts.length - i * (m + 1)))
      ∧ (∀ c : List Point,
          (mkWriteRequest client precision c).method = Method.POST
          ∧ (mkWriteRequest client precision c).url = client.host ++ "/write"
          ∧ (mkWriteRequest client precision c).auth
              = some ⟨client.credentials.username, client.credentials.password⟩
          ∧ qlookup (mkWriteRequest client precision c) "db"
              = some client.credentials.database
          ∧ qlookup (mkWriteRequest client precision c) "precision"
              = precision.map Precision.code
          ∧ (mkWriteRequest client precision c).body
              = some ( String.intercalate "\n" (c.map Point.toString))) := by
  refine ⟨chunksPos (m+1) pts, ?_, chunksPos_flatten m pts, chunksPos_length m pts,
    chunksPos_mem m pts, chunksPos_getD_length m pts, ?_⟩
  · unfold write_many chunks
    rw [hm]
    simp only [if_neg (Nat.succ_ne_zero m)]
    show some (writeManyLoop client hurl precision 0 (chunksPos (m + 1) pts)) = _
    rw [writeManyLoop_all_ok client hurl precision _ 0 (fun j r _ => h204 (0 + j) r)]
  · intro c
    refine ⟨rfl, rfl, rfl, ?_, ?_, rfl⟩
    · rfl
    · cases precision <;> rfl

theorem write_many_batches_C2_witness :
    exampleClient.max_batch = 4999 + 1
    ∧ ∃ cs : List (List Point),
        write_many exampleClient allOkHurl manyPoints none
          = some (cs.map (mkWriteRequest exampleClient none), Except.ok ())
        ∧ cs.length = 3
        ∧ (cs.getD 0 []).length = 5000
        ∧ (cs.getD 1 []).length = 5000
        ∧ (cs.getD 2 []).length = 2001 := by
  refine ⟨rfl, ?_⟩
  obtain ⟨cs, h1, _h2, h3, _h4, h5, _h6⟩ :=
    write_many_batches_C2 exampleClient allOkHurl manyPoints none 4999 rfl
      (fun i r => ⟨"Ok", rfl⟩)
  have hlen : manyPoints.length = 12001 := by
    show (List.replicate 12001 (Point.new "key")).length = 12001
    rw [List.length_replicate]
  rw [hlen] at h3 h5
  have hcs : cs.length = 3 := by rw [h3]
  refine ⟨cs, h1, hcs, ?_, ?_, ?_⟩
  · rw [h5 0 (by rw [hcs]; omega)]; omega
  · rw [h5 1 (by rw [hcs]; omega)]; omega
  · rw [h5 2 (by rw [hcs]; omega)]; omega

/-- Claim C3: `write_many` walks the chunks strictly in order; it returns
`Ok` exactly when every chunk response is a 204 (first conjunct and second
conjunct), and the first chunk whose outcome classifies as an error aborts
the call with that error after issuing exactly the first `k+1` requests —
no later chunk is ever requested (third conjunct). -/
theorem write_many_order_C3 (client : InfluxClient) (hurl : HurlFn)
    (pts : List Point) (precision : Option Precision) (m : Nat)
    (hm : client.max_batch = m + 1) :
    ((∀ i r, i < (chunksPos (m+1) pts).length → ∃ b, hurl i r = Except.ok ⟨204, b⟩) →
      write_many client hurl pts precision
        = some ((chunksPos (m+1) pts).map (mkWriteRequest client precision), Except.ok ()))
    ∧ (∀ reqs, write_many client hurl pts precision = some (reqs, Except.ok ()) →
        ∀ k, k < (chunksPos (m+1) pts).length →
          ∃ b, hurl k (mkWriteRequest client precision ((chunksPos (m+1) pts).getD k []))
            = Except.ok ⟨204, b⟩)
    ∧ (∀ k err, k < (chunksPos (m+1) pts).length →
        (∀ j r, j < k → ∃ b, hurl j r = Except.ok ⟨204, b⟩) →
        (∀ r, classifyWrite (hurl k r) = some err) →
        write_many client hurl pts precision
          = some (((chunksPos (m+1) pts).take (k+1)).map (mkWriteRequest client precision),
              Except.error err)
          ∧ (((chunksPos (m+1) pts).take (k+1)).map
              (mkWriteRequest client precision)).length = k + 1) := by
  have hw : write_many client hurl pts precision
      = some (writeManyLoop client hurl precision 0 (chunksPos (m+1) pts)) := by
    unfold write_many chunks
    rw [hm]
    simp only [if_neg (Nat.succ_ne_zero m)]
    rfl
  refine ⟨?_, ?_, ?_⟩
  · intro h
    rw [hw, writeManyLoop_all_ok client hurl precision _ 0
      (fun j r hj => by simpa using h j r hj)]
  · intro reqs hreqs k hk
    rw [hw] at hreqs
    have := writeManyLoop_ok_inv client hurl precision (chunksPos (m+1) pts) 0 reqs
      (Option.some.inj hreqs) k hk
    simpa using this
  · intro k err hk h204 hfail
    constructor
    · rw [hw, writeManyLoop_abort client hurl precision _ k 0 err hk
        (fun j r hj => by simpa using h204 j r hj)
        (fun r => by simpa using hfail r)]
    · rw [List.length_map, List.length_take]
      omega

theorem write_many_order_C3_witness :
    1 < (chunksPos (0+1) threePoints).length
    ∧ write_many smallClient failSecondHurl threePoints none
        = some (((chunksPos (0+1) threePoints).take 2).map (mkWriteRequest smallClient none),
            Except.error ( ClientError.Syntax "bad"))
    ∧ (((chunksPos (0+1) threePoints).take 2).map (mkWriteRequest smallClient none)).length
        = 2 := by
  have hlen : (chunksPos (0+1) threePoints).length = 3 := by
    rw [chunksPos_length]
    rfl
  have h := (write_many_order_C3 smallClient failSecondHurl threePoints none 0 rfl).2.2
    1 ( ClientError.Syntax "bad") (by rw [hlen]; omega)
    (fun j r hj => ⟨"Ok", by
      have hj0 : j = 0 := by omega
      subst hj0
      rfl⟩)
    (fun r => rfl)
  exact ⟨by rw [hlen]; omega, h.1, h.2⟩

/-! ## Single-request behaviour and response classification (C4) -/

theorem chunksPos_singleton {α : Type} (m : Nat) (a : α) :
    chunksPos (m+1) [a] = [[a]] := by
  simp [chunksPos]

theorem write_many_single (client : InfluxClient) (hurl : HurlFn) (pt : Point)
    (precision : Option Precision) (m : Nat) (hm : client.max_batch = m + 1) :
    write_many client hurl [pt] precision
      = some ([mkWriteRequest client precision [pt]],
          match classifyWrite (hurl 0 (mkWriteRequest client precision [pt])) with
          | none => Except.ok ()
          | some e => Except.error e) := by
  unfold write_many chunks
  rw [hm]
  simp only [if_neg (Nat.succ_ne_zero m)]
  show some (writeManyLoop client hurl precision 0 (chunksPos (m+1) [pt])) = _
  rw [chunksPos_singleton, writeManyLoop_cons, writeManyLoop_nil]
  cases classifyWrite (hurl 0 (mkWriteRequest client precision [pt])) <;> try rfl

theorem classifyWrite_other (s : Nat) (b : String)
    (h1 : s ≠ 204) (h2 : s ≠ 200) (h3 : s ≠ 400) :
    classifyWrite (Except.ok ⟨s, b⟩) = some ( ClientError.Unexpected
      ("Unexpected response. Status: " ++ Nat.repr s ++ "; Body: \"" ++ b ++ "\"")) := by
  simp_all [classifyWrite]

theorem query_snd (client : InfluxClient) (hurl : Request → Except String Response)
    (q : String) (epoch : Option Precision) :
    (query client hurl q epoch).2
      = match hurl (mkQueryRequest client q epoch) with
        | Except.error e => Except.error ( ClientError.Communication e)
        | Except.ok resp =>
          match resp.status with
          | 200 => Except.ok resp.body
          | 400 => Except.error ( ClientError.Syntax resp.body)
          | s => Except.error ( ClientError.Unexpected
              ("Unexpected response. Status: " ++ Nat.repr s ++ "; Body: \"" ++ resp.body ++ "\"")) := rfl

/-- Claim C4: the response classification of the write path (via the
single-chunk call) and of the query path.  On a write: 204 is success,
200 is `CouldNotComplete` with the body (never collapsed into 2xx
success), 400 is `Syntax` with the body, transport failure is
`Communication` with the transport text, anything else is `Unexpected`
naming status and body.  On a query: 200 is success with the raw body,
400 is `Syntax`, transport failure is `Communication`, and any other
status — 204 included — is `Unexpected`. -/
theorem response_classification_C4 :
    (∀ (client : InfluxClient) (hurl : HurlFn) (pt : Point)
        (precision : Option Precision) (m : Nat),
      client.max_batch = m + 1 →
      (∀ b, hurl 0 (mkWriteRequest client precision [pt]) = Except.ok ⟨204, b⟩ →
        write_many client hurl [pt] precision
          = some ([mkWriteRequest client precision [pt]], Except.ok ()))
      ∧ (∀ b, hurl 0 (mkWriteRequest client precision [pt]) = Except.ok ⟨200, b⟩ →
        write_many client hurl [pt] precision
          = some ([mkWriteRequest client precision [pt]],
              Except.error ( ClientError.CouldNotComplete b)))
      ∧ (∀ b, hurl 0 (mkWriteRequest client precision [pt]) = Except.ok ⟨400, b⟩ →
        write_many client hurl [pt] precision
          = some ([mkWriteRequest client precision [pt]],
              Except.error ( ClientError.Syntax b)))
      ∧ (∀ e, hurl 0 (mkWriteRequest client precision [pt]) = Except.error e →
        write_many client hurl [pt] precision
          = some ([mkWriteRequest client precision [pt]],
              Except.error ( ClientError.Communication e)))
      ∧ (∀ s b, hurl 0 (mkWriteRequest client precision [pt]) = Except.ok ⟨s, b⟩ →
        s ≠ 204 → s ≠ 200 → s ≠ 400 →
        write_many client hurl [pt] precision
          = some ([mkWriteRequest client precision [pt]],
              Except.error ( ClientError.Unexpected
                ("Unexpected response. Status: " ++ Nat.repr s ++ "; Body: \"" ++ b ++ "\"")))))
    ∧ (∀ (client : InfluxClient) (hurl : Request → Except String Response)
        (q : String) (epoch : Option Precision),
      (∀ b, hurl (mkQueryRequest client q epoch) = Except.ok ⟨200, b⟩ →
        (query client hurl q epoch).2 = Except.ok b)
      ∧ (∀ b, hurl (mkQueryRequest client q epoch) = Except.ok ⟨400, b⟩ →
        (query client hurl q epoch).2 = Except.error ( ClientError.Syntax b))
      ∧ (∀ e, hurl (mkQueryRequest client q epoch) = Except.error e →
        (query client hurl q epoch).2 = Except.error ( ClientError.Communication e))
      ∧ (∀ s b, hurl (mkQueryRequest client q epoch) = Except.ok ⟨s, b⟩ →
        s ≠ 200 → s ≠ 400 →
        (query client hurl q epoch).2 = Except.error ( ClientError.Unexpected
          ("Unexpected response. Status: " ++ Nat.repr s ++ "; Body: \"" ++ b ++ "\"")))) := by
  constructor
  · intro client hurl pt precision m hm
    refine ⟨?_, ?_, ?_, ?_, ?_⟩
    · intro b hb
      rw [write_many_single client hurl pt precision m hm, hb]
      try rfl
    · intro b hb
      rw [write_many_single client hurl pt precision m hm, hb]
      try rfl
    · intro b hb
      rw [write_many_single client hurl pt precision m hm, hb]
      try rfl
    · intro e he
      rw [write_many_single client hurl pt precision m hm, he]
      try rfl
    · intro s b hb h1 h2 h3
      rw [write_many_single client hurl pt precision m hm, hb,
        classifyWrite_other s b h1 h2 h3]
      try rfl
  · intro client hurl q epoch
    refine ⟨?_, ?_, ?_, ?_⟩
    · intro b hb
      rw [query_snd, hb]
      try rfl
    · intro b hb
      rw [query_snd, hb]
      try rfl
    · intro e he
      rw [query_snd, he]
      try rfl
    · intro s b hb h1 h2
      rw [query_snd, hb]
      show (match s with
        | 200 => Except.ok b
        | 400 => Except.error ( ClientError.Syntax b)
        | s => Except.error ( ClientError.Unexpected
            ("Unexpected response. Status: " ++ Nat.repr s ++ "; Body: \"" ++ b ++ "\""))) = _
      split <;> simp_all

theorem response_classification_C4_witness :
    exampleClient.max_batch = 4999 + 1
    ∧ write_many exampleClient status200Hurl [Point.new "k"] none
        = some ([mkWriteRequest exampleClient none [Point.new "k"]],
            Except.error ( ClientError.CouldNotComplete "oops"))
    ∧ (query exampleClient q204Hurl "SELECT 1" none).2
        = Except.error ( ClientError.Unexpected
            ("Unexpected response. Status: " ++ Nat.repr 204 ++ "; Body: \"" ++ "nope" ++ "\"")) := by
  refine ⟨rfl, ?_, ?_⟩
  · exact ((response_classification_C4).1 exampleClient status200Hurl (Point.new "k")
      none 4999 rfl).2.1 "oops" rfl
  · exact ((response_classification_C4).2 exampleClient q204Hurl "SELECT 1" none).2.2.2
      204 "nope" rfl (by omega) (by omega)

/-- Claim C6: `query` issues the single GET request to `<host>/query`
carrying `db`, `q`, and `epoch` exactly when given; basic auth is absent
exactly when both credentials are empty and otherwise carries them; a 200
answer returns the raw body unparsed. -/
theorem query_request_C6 (client : InfluxClient) (hurl : Request → Except String Response)
    (q : String) (epoch : Option Precision) :
    (query client hurl q epoch).1 = mkQueryRequest client q epoch
    ∧ (mkQueryRequest client q epoch).method = Method.GET
    ∧ (mkQueryRequest client q epoch).url = client.host ++ "/query"
    ∧ (mkQueryRequest client q epoch).body = none
    ∧ qlookup (mkQueryRequest client q epoch) "db" = some client.credentials.database
    ∧ qlookup (mkQueryRequest client q epoch) "q" = some q
    ∧ qlookup (mkQueryRequest client q epoch) "epoch" = epoch.map Precision.code
    ∧ ((mkQueryRequest client q epoch).auth = none ↔
        (client.credentials.username = "" ∧ client.credentials.password = ""))
    ∧ ((mkQueryRequest client q epoch).auth = none ∨
        (mkQueryRequest client q epoch).auth
          = some { username := client.credentials.username
                   password := client.credentials.password })
    ∧ (∀ b, hurl (mkQueryRequest client q epoch) = Except.ok ⟨200, b⟩ →
        (query client hurl q epoch).2 = Except.ok b) := by
  refine ⟨rfl, rfl, rfl, rfl, rfl, rfl, ?_, ?_, ?_, ?_⟩
  · cases epoch <;> rfl
  · show (if client.credentials.username = "" ∧ client.credentials.password = ""
        then none
        else some { username := client.credentials.username
                    password := client.credentials.password : Auth }) = none ↔ _
    split_ifs with h
    · simp [h]
    · simp [h]
  · show (if client.credentials.username = "" ∧ client.credentials.password = ""
        then none
        else some { username := client.credentials.username
                    password := client.credentials.password : Auth }) = none
      ∨ (if client.credentials.username = "" ∧ client.credentials.password = ""
        then none
        else some { username := client.credentials.username
                    password := client.credentials.password : Auth })
        = some { username := client.credentials.username
                 password := client.credentials.password : Auth }
    split_ifs with h
    · exact Or.inl rfl
    · exact Or.inr rfl
  · intro b hb
    rw [query_snd, hb]
    try rfl

theorem query_request_C6_witness :
    (mkQueryRequest emptyCredClient "SHOW DATABASES" none).auth = none
    ∧ (query emptyCredClient q200Hurl "SHOW DATABASES" none).2 = Except.ok "data" := by
  obtain ⟨-, -, -, -, -, -, -, h8, -, h10⟩ :=
    query_request_C6 emptyCredClient q200Hurl "SHOW DATABASES" none
  exact ⟨h8.mpr ⟨rfl, rfl⟩, h10 "data" rfl⟩

/-- Claim C10: a zero `max_batch` makes every `write_many` call hit the
chunk-size-zero panic of `slice::chunks` — the empty slice included —
while any positive `max_batch` gives zero requests and `Ok` on the empty
slice. -/
theorem write_many_zero_batch_C10 :
    (∀ (client : InfluxClient) (hurl : HurlFn) (pts : List Point)
        (precision : Option Precision),
      client.max_batch = 0 → write_many client hurl pts precision = none)
    ∧ (∀ (client : InfluxClient) (hurl : HurlFn) (precision : Option Precision) (m : Nat),
      client.max_batch = m + 1 →
      write_many client hurl [] precision = some ([], Except.ok ())) := by
  constructor
  · intro client hurl pts precision h0
    unfold write_many chunks
    rw [h0]
    rfl
  · intro client hurl precision m hm
    unfold write_many chunks
    rw [hm]
    simp only [if_neg (Nat.succ_ne_zero m)]
    show some (writeManyLoop client hurl precision 0 (chunksPos (m+1) [])) = _
    rw [show chunksPos (m+1) ([] : List Point) = [] from by simp [chunksPos],
      writeManyLoop_nil]

theorem write_many_zero_batch_C10_witness :
    zeroClient.max_batch = 0
    ∧ write_many zeroClient allOkHurl [Point.new "k"] none = none
    ∧ write_many zeroClient allOkHurl [] none = none
    ∧ exampleClient.max_batch = 4999 + 1
    ∧ write_many exampleClient allOkHurl [] none = some ([], Except.ok ()) :=
  ⟨rfl,
   write_many_zero_batch_C10.1 zeroClient allOkHurl [Point.new "k"] none rfl,
   write_many_zero_batch_C10.1 zeroClient allOkHurl [] none rfl,
   rfl,
   write_many_zero_batch_C10.2 exampleClient allOkHurl none 4999 rfl⟩
